import Mathlib

/-!
# vaulted: the AWS credential editor and the batch lifecycle commands

A shallow embedding of `menu/aws.go`, `menu/menu.go`, `remove.go` and
`upgrade.go`.

* Go `error` values are the inductive `GoError`; `nil` is `none`.
* Pointers to records are `Option` values; a dereference of `nil` is an
  explicit `nilDeref` outcome.
* `time.Duration` is an `Int` number of nanoseconds.
* The terminal is a `Console`: the menu being edited, the script of replies the
  prompt adapter will deliver, and the text written so far (colour escapes are
  not represented).
* The store is an abstract state machine; every call on it is appended to a
  call log.
-/

/-- Go error values. The package-level sentinels are compared by identity, so
each is its own constructor; `New msg` is a value made by `errors.New` or by a
collaborator; `ErrorWithExitCode` is the composite error of package main. -/
inductive GoError where
  | ErrUserAbort
  | ErrSaveAndExit
  | ErrUpgradeFailed
  | New (msg : String)
  | ErrorWithExitCode (err : GoError) (code : Int)
  deriving DecidableEq

/-- The text of an error, as printed by the `%v` verb. -/
def GoError.Error : GoError → String
  | .ErrUserAbort => "Aborted by user. Vault unchanged."
  | .ErrSaveAndExit => "Exiting at user request."
  | .ErrUpgradeFailed => "Upgrade failed"
  | .New msg => msg
  | .ErrorWithExitCode err _ => err.Error

/-- One hour of `time.Duration`, in nanoseconds. -/
def Hour : Int := 3600 * 1000000000

namespace vaulted

/-- Modelled from the spec: the AWSKey record of the storage layer (its type
declaration is not under src/): access-key id, secret, MFA identifier, role,
the flag meaning do NOT generate temporary credentials, and an optional
region. -/
structure AWSKey where
  ID : String
  Secret : String
  MFA : String
  Role : String
  ForgoTempCredGeneration : Bool
  Region : Option String
  deriving DecidableEq

/-- The zero value `vaulted.AWSKey{}`. -/
def AWSKey.zero : AWSKey := ⟨"", "", "", "", false, none⟩

/-- Modelled from the spec: the Vault record of the storage layer (its type
declaration is not under src/): the variable mapping, the optional AWS
credential record and the session duration. -/
structure Vault where
  Vars : List (String × String)
  AWSKey : Option AWSKey
  Duration : Int
  deriving DecidableEq

end vaulted

namespace menu

/-- The type `Menu` of menu.go. -/
structure Menu where
  Vault : vaulted.Vault
  ShowHidden : Bool
  deriving DecidableEq

/-- The method `toggleHidden` of menu.go. -/
def Menu.toggleHidden (m : Menu) : Menu :=
  { m with ShowHidden := !m.ShowHidden }

/-- What one read of the prompt adapter returns: the Go pair (string, error). -/
structure Reply where
  value : String
  err : Option GoError
  deriving DecidableEq

/-- The interactive session: the menu under edit, the replies still to be
delivered by the prompt adapter, and everything written to the terminal. -/
structure Console where
  m : Menu
  input : List Reply
  out : List String
  deriving DecidableEq

/-- Write one piece of text to the terminal. -/
def Console.print (s : String) (c : Console) : Console :=
  { c with out := c.out ++ [s] }

/-- Write several pieces of text to the terminal. -/
def Console.prints (ss : List String) (c : Console) : Console :=
  { c with out := c.out ++ ss }

/-- The assignment `m.Vault.AWSKey = k`. -/
def Console.setAWSKey (k : Option vaulted.AWSKey) (c : Console) : Console :=
  { c with m := { c.m with Vault := { c.m.Vault with AWSKey := k } } }

/-- The assignment `m.Vault.Duration = d`. -/
def Console.setDuration (d : Int) (c : Console) : Console :=
  { c with m := { c.m with Vault := { c.m.Vault with Duration := d } } }

/-- Modelled from the spec: the prompt adapter (`interaction.ReadValue`,
`ReadMenu` and `ReadPrompt`; the type Interaction is not under src/). Each
call shows the prompt, blocks for one line and returns (string, error|abort).
Here it delivers the next scripted reply; a script that has run out is a
closed input channel and the read fails with an EOF error. -/
def Console.read (prompt : String) (c : Console) : Reply × Console :=
  match c.input with
  | [] => (⟨"", some (GoError.New "EOF")⟩, { c with out := c.out ++ [prompt] })
  | r :: rest => (r, { c with input := rest, out := c.out ++ [prompt] })

/-- The text written by `AWSMenu.Help`. -/
def AWSMenu.Help : List String :=
  [ "k,key    - Key\n",
    "m,mfa    - MFA\n",
    "r,role   - Role\n",
    "R,region - Region\n",
    "t,temp   - Substitute with temporary credentials\n",
    "S,show   - Show/Hide Secrets\n",
    "D,delete - Delete\n",
    "?,help   - Help\n",
    "b,back   - Back\n",
    "q,quit   - Quit\n" ]

/-- The text written by `AWSMenu.Printer`; `sdkRegions` is the known-region
set of the AWS SDK. -/
def AWSMenu.Printer (sdkRegions : String → Bool) (m : Menu) : List String :=
  "\nAWS Key:\n" ::
  match m.Vault.AWSKey with
  | some k =>
    [ "  Key ID: ", k.ID ++ "\n", "  Secret: ",
      (if m.ShowHidden then k.Secret else "<hidden>") ++ "\n",
      "  MFA: ",
      (if k.MFA = "" then
        "<not configured>" ++ " " ++
          (if !k.ForgoTempCredGeneration then
            " (warning: some APIs will not function without MFA (e.g. IAM))"
           else "") ++ "\n"
       else k.MFA ++ "\n") ] ++
    (if k.Role ≠ "" then [ "  Role: ", k.Role ++ "\n" ] else []) ++
    [ "  Substitute with temporary credentials: ",
      (if !k.ForgoTempCredGeneration then "true" else "false") ++ "\n",
      "  Region: ",
      (match k.Region with
       | none => "<global>\n"
       | some r =>
         if r = "" then "<global>\n"
         else r ++ (if !sdkRegions r then " (unrecognized region)" else "") ++ "\n") ]
  | none => [ "  [Empty]\n" ]

/-- The method `AWSMenu.readRegion`: the region read and the error. -/
def AWSMenu.readRegion (sdkRegions : String → Bool) (c : Console) :
    (String × Option GoError) × Console :=
  let r := c.read "Region: "
  match r.1.err with
  | some e => (("", some e), r.2)
  | none =>
    if !sdkRegions r.1.value then
      ((r.1.value, none),
        r.2.print ("\n" ++ "WARNING: " ++ r.1.value ++ " doesn't appear to be a valid region." ++ "\n"))
    else ((r.1.value, none), r.2)

/-- How one arm of the switch in `AWSMenu.Handler` ends: it reaches the error
check behind the switch with the current value of the outer variable `err`,
it executes `continue`, it returns from Handler, or it dereferences nil. -/
inductive Flow where
  | endSwitch (c : Console) (err : Option GoError)
  | cont (c : Console)
  | ret (c : Console) (err : Option GoError)
  | nilDeref (c : Console)

/-- The text printed when a command needs an AWS key and there is none. -/
def mustAssociate : String := "Must associate an AWS key with the vault first\n"

/-- Arm `case "k", "add", "key", "keys"`. The sub-flow `detect` is
`DetectMFAMenu.Handler` (not under src/), which shares the menu and the
terminal with the editor. -/
def AWSMenu.Handler.key (detect : Console → Console × Option GoError) (c : Console) : Flow :=
  let c := c.print "Note: For increased security, Vaulted defaults to substituting your credentials with temporary credentials.\n"
  let c := c.print "      The key specified here may not match the key in your spawned session.\n"
  let c := c.print "\n"
  let k := c.read "Key ID: "
  match k.1.err with
  | some keyErr => .ret k.2 (some keyErr)
  | none =>
    let s := k.2.read "Secret: "
    match s.1.err with
    | some secretErr => .ret s.2 (some secretErr)
    | none =>
      let oldAWSKey := s.2.m.Vault.AWSKey
      let newAWSKey : vaulted.AWSKey :=
        match oldAWSKey with
        | none => vaulted.AWSKey.zero
        | some old => old
      let c := s.2.setAWSKey (some { newAWSKey with ID := k.1.value, Secret := s.1.value })
      let d := detect c
      if d.2 = some GoError.ErrUserAbort then
        .endSwitch (d.1.setAWSKey oldAWSKey) none
      else
        .endSwitch d.1 none

/-- Arm `case "m", "mfa"`. -/
def AWSMenu.Handler.mfa (detect : Console → Console × Option GoError) (c : Console) : Flow :=
  match c.m.Vault.AWSKey with
  | none => .endSwitch (c.print mustAssociate) none
  | some k =>
    let oldMFA := k.MFA
    let d := detect (c.setAWSKey (some { k with MFA := "" }))
    match d.1.m.Vault.AWSKey with
    | none => .nilDeref d.1
    | some k1 =>
      if d.2 = some GoError.ErrUserAbort then
        .cont (d.1.setAWSKey (some { k1 with MFA := oldMFA }))
      else if k1.MFA = "" then
        let r := d.1.read "MFA ARN or serial number: "
        if r.1.err = some GoError.ErrUserAbort then
          .cont (r.2.setAWSKey (some { k1 with MFA := oldMFA }))
        else if r.1.err = none then
          .endSwitch (r.2.setAWSKey (some { k1 with MFA := r.1.value })) r.1.err
        else
          .endSwitch r.2 r.1.err
      else
        .endSwitch d.1 none

/-- Arm `case "r", "role"`. -/
def AWSMenu.Handler.role (c : Console) : Flow :=
  match c.m.Vault.AWSKey with
  | none => .endSwitch (c.print mustAssociate) none
  | some k =>
    let r := c.read "Role ARN: "
    if r.1.err = none then
      .endSwitch (r.2.setAWSKey (some { k with Role := r.1.value })) r.1.err
    else
      .endSwitch r.2 r.1.err

/-- Arm `case "R", "region"`. -/
def AWSMenu.Handler.region (sdkRegions : String → Bool) (c : Console) : Flow :=
  let r := AWSMenu.readRegion sdkRegions c
  match r.1.2 with
  | some e => .ret r.2 (some e)
  | none =>
    if r.1.1 ≠ "" then
      let k : vaulted.AWSKey :=
        match r.2.m.Vault.AWSKey with
        | none => vaulted.AWSKey.zero
        | some k0 => k0
      .endSwitch (r.2.setAWSKey (some { k with Region := some r.1.1 })) none
    else
      match r.2.m.Vault.AWSKey with
      | some k0 => .endSwitch (r.2.setAWSKey (some { k0 with Region := none })) none
      | none => .endSwitch r.2 none

/-- Arm `case "t", "temp", "temporary"`. -/
def AWSMenu.Handler.temp (c : Console) : Flow :=
  match c.m.Vault.AWSKey with
  | none => .endSwitch (c.print mustAssociate) none
  | some k =>
    let forgoTempCredGeneration := !k.ForgoTempCredGeneration
    if !forgoTempCredGeneration ∧ c.m.Vault.Duration > 36 * Hour then
      let c := c.print "Proceeding will adjust your vault duration to 36h (the maximum when using temporary creds).\n"
      let r := c.read "Do you wish to proceed? (y/n): "
      if r.1.value = "y" then
        let c := r.2.setDuration (36 * Hour)
        .endSwitch
          (c.setAWSKey (some { k with ForgoTempCredGeneration := forgoTempCredGeneration }))
          r.1.err
      else
        .cont (r.2.print "Temporary credentials not enabled.\n")
    else
      .endSwitch
        (c.setAWSKey (some { k with ForgoTempCredGeneration := forgoTempCredGeneration }))
        none

/-- Arm `case "D", "delete", "remove"`. -/
def AWSMenu.Handler.delete (c : Console) : Flow :=
  match c.m.Vault.AWSKey with
  | none => .endSwitch (c.print mustAssociate) none
  | some _ =>
    let r := c.read "Delete your AWS key? (y/n): "
    if r.1.err = none then
      if r.1.value = "y" then .endSwitch (r.2.setAWSKey none) r.1.err
      else .endSwitch r.2 r.1.err
    else
      .endSwitch r.2 r.1.err

/-- Arm `case "q", "quit", "exit"`. -/
def AWSMenu.Handler.quit (c : Console) : Flow :=
  let r := c.read "Are you sure you wish to save and exit the vault? (y/n): "
  if r.1.err = none then
    if r.1.value = "y" then .ret r.2 (some GoError.ErrSaveAndExit)
    else .endSwitch r.2 r.1.err
  else
    .endSwitch r.2 r.1.err

/-- The switch on the menu input in `AWSMenu.Handler`. -/
def AWSMenu.Handler.switch (sdkRegions : String → Bool)
    (detect : Console → Console × Option GoError) (input : String) (c : Console) : Flow :=
  if input = "k" ∨ input = "add" ∨ input = "key" ∨ input = "keys" then
    AWSMenu.Handler.key detect c
  else if input = "m" ∨ input = "mfa" then
    AWSMenu.Handler.mfa detect c
  else if input = "r" ∨ input = "role" then
    AWSMenu.Handler.role c
  else if input = "R" ∨ input = "region" then
    AWSMenu.Handler.region sdkRegions c
  else if input = "t" ∨ input = "temp" ∨ input = "temporary" then
    AWSMenu.Handler.temp c
  else if input = "S" ∨ input = "show" ∨ input = "hide" then
    .endSwitch { c with m := c.m.toggleHidden } none
  else if input = "D" ∨ input = "delete" ∨ input = "remove" then
    AWSMenu.Handler.delete c
  else if input = "b" ∨ input = "back" then
    .ret c none
  else if input = "q" ∨ input = "quit" ∨ input = "exit" then
    AWSMenu.Handler.quit c
  else if input = "?" ∨ input = "help" then
    .endSwitch (c.prints AWSMenu.Help) none
  else
    .endSwitch (c.print "Command not recognized\n") none

/-- How Handler stops: it returns an error value (or nil), or the process
panics on a nil dereference. -/
inductive Exit where
  | returned (err : Option GoError)
  | panicked
  deriving DecidableEq

/-- The result of one pass through the body of the `for` loop of
`AWSMenu.Handler`: the loop goes round again, or Handler stops. -/
inductive Step where
  | next (c : Console)
  | stop (c : Console) (e : Exit)

/-- What follows an arm of the switch: `continue` and the end of the switch
both lead to the next pass, the latter only after the check
`if err != nil return err`. -/
def Flow.toStep : Flow → Step
  | .endSwitch c (some e) => .stop c (.returned (some e))
  | .endSwitch c none => .next c
  | .cont c => .next c
  | .ret c e => .stop c (.returned e)
  | .nilDeref c => .stop c .panicked

/-- The head of the loop body: `m.Printer()` and then the menu read, whose
prompt depends on whether the vault has an AWS key. -/
def AWSMenu.Handler.readMenu (sdkRegions : String → Bool) (c : Console) : Reply × Console :=
  match c.m.Vault.AWSKey with
  | none => (c.prints (AWSMenu.Printer sdkRegions c.m)).read "Edit AWS key [k,b]: "
  | some _ => (c.prints (AWSMenu.Printer sdkRegions c.m)).read "Edit AWS key [k,m,r,R,t,S,D,b]: "

/-- One pass through the body of the `for` loop of `AWSMenu.Handler`: print
the key, read the menu input, run the switch, check `err`. -/
def AWSMenu.Handler.iteration (sdkRegions : String → Bool)
    (detect : Console → Console × Option GoError) (c : Console) : Step :=
  let r := AWSMenu.Handler.readMenu sdkRegions c
  match r.1.err with
  | some e => .stop r.2 (.returned (some e))
  | none => (AWSMenu.Handler.switch sdkRegions detect r.1.value r.2).toStep

/-- The method `AWSMenu.Handler`: the `for` loop, run for at most `fuel`
passes; `none` means the passes ran out before Handler stopped. -/
def AWSMenu.Handler (sdkRegions : String → Bool)
    (detect : Console → Console × Option GoError) : Nat → Console → Option (Console × Exit)
  | 0, _ => none
  | fuel + 1, c =>
    match AWSMenu.Handler.iteration sdkRegions detect c with
    | .next c1 => AWSMenu.Handler sdkRegions detect fuel c1
    | .stop c1 e => some (c1, e)

end menu

/-! ## Package main: the batch commands -/

/-- Modelled from the spec: a legacy environment record (package legacy, not
under src/); only its variable mapping is carried over. -/
structure legacy.Environment where
  Vars : List (String × String)
  deriving DecidableEq

/-- A call made on the store, with the error it returned where the program
looks at it. -/
inductive Call where
  | OpenLegacyVault
  | ListVaults
  | SealVaultWithPassword (vault : vaulted.Vault) (name password : String) (err : Option GoError)
  | RemoveVault (name : String) (err : Option GoError)
  deriving DecidableEq

/-- Modelled from the spec: the Store contract (interface `vaulted.Store` of
the storage layer, not under src/) as a state machine over its own state `σ`:
`ListVaults() → (names, error)`, `RemoveVault(name) → error`,
`SealVaultWithPassword(vault, name, password) → error`, and, for a store that
is also a `legacy.LegacyStore`, `OpenLegacyVault() → (name → record, password,
error)`; the mapping is given in the order in which the `range` loop visits
it. -/
structure Store (σ : Type) where
  ListVaults : σ → (List String × Option GoError) × σ
  RemoveVault : String → σ → Option GoError × σ
  SealVaultWithPassword : vaulted.Vault → String → String → σ → Option GoError × σ
  OpenLegacyVault :
    Option (σ → (List (String × legacy.Environment) × String × Option GoError) × σ)

/-- The process running a batch command: the state of the store, the calls
made on it so far, and the text written to standard output. -/
structure Proc (σ : Type) where
  store : σ
  calls : List Call
  out : List String

/-- Write one piece of text to standard output. -/
def Proc.print {σ : Type} (s : String) (p : Proc σ) : Proc σ :=
  { p with out := p.out ++ [s] }

/-- The call `store.RemoveVault(name)`. -/
def Proc.RemoveVault {σ : Type} (S : Store σ) (name : String) (p : Proc σ) :
    Option GoError × Proc σ :=
  let r := S.RemoveVault name p.store
  (r.1, { p with store := r.2, calls := p.calls ++ [Call.RemoveVault name r.1] })

/-- The call `store.SealVaultWithPassword(vault, name, password)`. -/
def Proc.SealVaultWithPassword {σ : Type} (S : Store σ) (vault : vaulted.Vault)
    (name password : String) (p : Proc σ) : Option GoError × Proc σ :=
  let r := S.SealVaultWithPassword vault name password p.store
  (r.1, { p with store := r.2,
                 calls := p.calls ++ [Call.SealVaultWithPassword vault name password r.1] })

/-- The call `store.ListVaults()`. -/
def Proc.ListVaults {σ : Type} (S : Store σ) (p : Proc σ) :
    (List String × Option GoError) × Proc σ :=
  let r := S.ListVaults p.store
  (r.1, { p with store := r.2, calls := p.calls ++ [Call.ListVaults] })

/-- The `for` loop of `Remove.Run`, with the counter `failures`. -/
def Remove.Run.loop {σ : Type} (S : Store σ) : List String → Int → Proc σ → Int × Proc σ
  | [], failures, p => (failures, p)
  | name :: rest, failures, p =>
    let r := Proc.RemoveVault S name p
    match r.1 with
    | some err =>
      Remove.Run.loop S rest (failures + 1) (r.2.print (name ++ ": " ++ err.Error ++ "\n"))
    | none => Remove.Run.loop S rest failures r.2

/-- The method `Remove.Run` of remove.go. -/
def Remove.Run {σ : Type} (S : Store σ) (VaultNames : List String) (p : Proc σ) :
    Option GoError × Proc σ :=
  let r := Remove.Run.loop S VaultNames 0 p
  if r.1 > 0 then
    (some (GoError.ErrorWithExitCode (GoError.New "Vault could not be removed") r.1), r.2)
  else
    (none, r.2)

/-- The `for ... range environments` loop of `Upgrade.Run`, with the counter
`failed`; `existingVaults` is the lookup in the map of that name. -/
def Upgrade.Run.loop {σ : Type} (S : Store σ) (existingVaults : String → Bool)
    (password : String) : List (String × legacy.Environment) → Int → Proc σ → Int × Proc σ
  | [], failed, p => (failed, p)
  | (name, env) :: rest, failed, p =>
    if existingVaults name then
      Upgrade.Run.loop S existingVaults password rest failed
        (p.print (name ++ ": skipped (vault already exists)\n"))
    else
      let vault : vaulted.Vault := { Vars := env.Vars, AWSKey := none, Duration := 0 }
      let r := Proc.SealVaultWithPassword S vault name password p
      match r.1 with
      | some err =>
        Upgrade.Run.loop S existingVaults password rest (failed + 1)
          (r.2.print (name ++ ": " ++ err.Error ++ "\n"))
      | none =>
        Upgrade.Run.loop S existingVaults password rest failed
          (r.2.print (name ++ ": upgraded\n"))

/-- The method `Upgrade.Run` of upgrade.go. The result `none` is the panic of
the type assertion `store.(legacy.LegacyStore)` on a store without the legacy
capability. -/
def Upgrade.Run {σ : Type} (S : Store σ) (p : Proc σ) : Option (Option GoError × Proc σ) :=
  match S.OpenLegacyVault with
  | none => none
  | some OpenLegacyVault =>
    let o := OpenLegacyVault p.store
    let p1 : Proc σ := { p with store := o.2, calls := p.calls ++ [Call.OpenLegacyVault] }
    match o.1.2.2 with
    | some err => some (some err, p1)
    | none =>
      let l := Proc.ListVaults S p1
      let existingVaults : String → Bool := fun name => l.1.1.contains name
      let r := Upgrade.Run.loop S existingVaults o.1.2.1 o.1.1 0 l.2
      if r.1 > 0 then
        some (some (GoError.ErrorWithExitCode GoError.ErrUpgradeFailed r.1), r.2)
      else
        some (none, r.2)

/-! ## The ceiling on the session duration, and concrete sessions and stores -/

namespace menu

/-- The policy ceiling of the data model: a vault whose AWS key has
temporary-credential substitution on (ForgoTempCredGeneration = false) has a
session duration of at most 36 hours. -/
def durationCeiling (v : vaulted.Vault) : Prop :=
  ∀ k : vaulted.AWSKey, v.AWSKey = some k → k.ForgoTempCredGeneration = false →
    v.Duration ≤ 36 * Hour

/-- A sub-flow that discovers no device and returns nil. -/
def detectNothing : Console → Console × Option GoError :=
  fun x => (x, none)

/-- A sub-flow that the user cancels at once. -/
def detectAborted : Console → Console × Option GoError :=
  fun x => (x, some GoError.ErrUserAbort)

/-- A known-region set with two members. -/
def twoRegions : String → Bool :=
  fun r => r = "us-east-1" ∨ r = "eu-west-1"

/-- A key with an MFA device, a region and substitution switched off. -/
def sampleKey : vaulted.AWSKey :=
  ⟨"AKIAOLD", "oldsecret", "arn:aws:iam::1:mfa/me", "", true, some "us-east-1"⟩

/-- A session on a vault with the given key and duration, about to read the
given script. -/
def session (k : Option vaulted.AWSKey) (d : Int) (script : List Reply) : Console :=
  ⟨⟨⟨[("HOME", "/root")], k, d⟩, false⟩, script, []⟩

end menu

/-- An in-memory store: the vaults it holds, the error (if any) with which
listing them fails, and the content of its legacy vault. -/
structure MemStore where
  vaults : List (String × vaulted.Vault)
  listErr : Option GoError
  legacyEnvs : List (String × legacy.Environment)
  legacyPassword : String
  deriving DecidableEq

/-- The store operations on a `MemStore`. ListVaults returns no names and the
error when listing fails; RemoveVault fails for a name that is not there;
SealVaultWithPassword writes the vault under the name, replacing what was
there. -/
def MemStore.ops : Store MemStore where
  ListVaults := fun s =>
    match s.listErr with
    | some e => (([], some e), s)
    | none => ((s.vaults.map Prod.fst, none), s)
  RemoveVault := fun name s =>
    if s.vaults.any (fun v => v.1 = name) then
      (none, { s with vaults := s.vaults.filter (fun v => v.1 ≠ name) })
    else
      (some (GoError.New "vault does not exist"), s)
  SealVaultWithPassword := fun vault name _ s =>
    (none, { s with vaults := s.vaults.filter (fun v => v.1 ≠ name) ++ [(name, vault)] })
  OpenLegacyVault := some (fun s => ((s.legacyEnvs, s.legacyPassword, none), s))

/-- The errors the store returns, and the state it ends in, when it is asked
to remove each of the names in turn, whatever the earlier removals returned. -/
def Store.removeEach {σ : Type} (S : Store σ) : List String → σ → List (Option GoError) × σ
  | [], s => ([], s)
  | name :: rest, s =>
    let r := S.RemoveVault name s
    let t := Store.removeEach S rest r.2
    (r.1 :: t.1, t.2)

/-- The failure lines for a list of removal outcomes: one line
`<name>: <error>` for each name whose removal returned an error. -/
def failureLines : List (String × Option GoError) → List String
  | [] => []
  | (name, some err) :: rest => (name ++ ": " ++ err.Error ++ "\n") :: failureLines rest
  | (_, none) :: rest => failureLines rest

/-! ## Properties of the credential editor -/

namespace menu

/-- The menu read delivers the head of the script and leaves the menu as it was. -/
theorem AWSMenu.Handler.readMenu_cons (sdkRegions : String → Bool) (c : Console)
    (r : Reply) (rest : List Reply) (hin : c.input = r :: rest) :
    (AWSMenu.Handler.readMenu sdkRegions c).1 = r ∧
    (AWSMenu.Handler.readMenu sdkRegions c).2.m = c.m ∧
    (AWSMenu.Handler.readMenu sdkRegions c).2.input = rest := by
  unfold AWSMenu.Handler.readMenu
  cases h : c.m.Vault.AWSKey <;> simp [Console.read, Console.prints, hin]

/-- The key arm, when both reads succeed: the sub-flow is entered in a state
`x` whose key carries the new id and secret, and the arm restores the old key
exactly when the sub-flow returns the abort signal. -/
theorem AWSMenu.Handler.key_reads (detect : Console → Console × Option GoError)
    (c : Console) (id secret : String) (rest : List Reply)
    (hin : c.input = ⟨id, none⟩ :: ⟨secret, none⟩ :: rest) :
    ∃ x : Console,
      x.input = rest ∧
      x.m = (c.setAWSKey (some { (c.m.Vault.AWSKey.getD vaulted.AWSKey.zero) with
                                  ID := id, Secret := secret })).m ∧
      AWSMenu.Handler.key detect c =
        if (detect x).2 = some GoError.ErrUserAbort then
          Flow.endSwitch ((detect x).1.setAWSKey c.m.Vault.AWSKey) none
        else Flow.endSwitch (detect x).1 none := by
  refine ⟨Console.setAWSKey
      (some { (c.m.Vault.AWSKey.getD vaulted.AWSKey.zero) with ID := id, Secret := secret })
      ⟨c.m, rest, c.out ++ ["Note: For increased security, Vaulted defaults to substituting your credentials with temporary credentials.\n",
        "      The key specified here may not match the key in your spawned session.\n",
        "\n", "Key ID: ", "Secret: "]⟩, rfl, rfl, ?_⟩
  cases hk : c.m.Vault.AWSKey <;>
    simp [AWSMenu.Handler.key, Console.read, Console.print, hin, hk, Console.setAWSKey]

/-- C1: when the add/key command (any alias) has read an id and a secret and
the MFA auto-detection sub-flow, entered with a key that carries them, returns
ErrUserAbort, the pass ends with the vault holding the AWSKey it had before the
command (none if it had none) and the loop goes on to its next pass. -/
theorem AWSMenu_Handler_key_abort_restores_AWSKey (sdkRegions : String → Bool)
    (detect : Console → Console × Option GoError) (c : Console)
    (cmd id secret : String) (rest : List Reply)
    (hcmd : cmd ∈ ["k", "add", "key", "keys"])
    (hin : c.input = ⟨cmd, none⟩ :: ⟨id, none⟩ :: ⟨secret, none⟩ :: rest) :
    ∃ x : Console,
      x.input = rest ∧
      x.m.Vault.AWSKey =
        some { (c.m.Vault.AWSKey.getD vaulted.AWSKey.zero) with ID := id, Secret := secret } ∧
      ((detect x).2 = some GoError.ErrUserAbort →
        ∃ c1 : Console,
          AWSMenu.Handler.iteration sdkRegions detect c = Step.next c1 ∧
          c1.m.Vault.AWSKey = c.m.Vault.AWSKey ∧
          ∀ fuel : Nat, AWSMenu.Handler sdkRegions detect (fuel + 1) c =
            AWSMenu.Handler sdkRegions detect fuel c1) := by
  obtain ⟨h1, h2, h3⟩ := AWSMenu.Handler.readMenu_cons sdkRegions c ⟨cmd, none⟩ _ hin
  obtain ⟨x, hx1, hx2, hx3⟩ := AWSMenu.Handler.key_reads detect _ id secret rest h3
  rw [h2] at hx2 hx3
  refine ⟨x, hx1, by rw [hx2]; rfl, fun habort => ?_⟩
  have hit : AWSMenu.Handler.iteration sdkRegions detect c =
      Step.next ((detect x).1.setAWSKey c.m.Vault.AWSKey) := by
    simp only [AWSMenu.Handler.iteration, h1]
    simp only [List.mem_cons, List.mem_singleton, List.not_mem_nil, or_false] at hcmd
    rcases hcmd with rfl | rfl | rfl | rfl <;>
      simp [AWSMenu.Handler.switch, hx3, habort, Flow.toStep]
  refine ⟨_, hit, ?_, ?_⟩
  · simp [Console.setAWSKey]
  · intro fuel
    simp [AWSMenu.Handler, hit]

/-- C5: in a vault without an AWS key, each of the commands mfa, role, temp and
delete (under every alias) prints the warning, reads nothing beyond the menu
input, leaves the menu and with it every field of the vault as it was, and the
loop goes on to its next pass. -/
theorem AWSMenu_Handler_without_key_is_noop (sdkRegions : String → Bool)
    (detect : Console → Console × Option GoError) (c : Console) (cmd : String)
    (rest : List Reply)
    (hcmd : cmd ∈ ["m", "mfa", "r", "role", "t", "temp", "temporary", "D", "delete", "remove"])
    (hkey : c.m.Vault.AWSKey = none)
    (hin : c.input = ⟨cmd, none⟩ :: rest) :
    ∃ c1 : Console,
      AWSMenu.Handler.iteration sdkRegions detect c = Step.next c1 ∧
      c1.m = c.m ∧
      c1.input = rest ∧
      c1.out = c.out ++ AWSMenu.Printer sdkRegions c.m ++
        ["Edit AWS key [k,b]: ", "Must associate an AWS key with the vault first\n"] ∧
      ∀ fuel : Nat, AWSMenu.Handler sdkRegions detect (fuel + 1) c =
        AWSMenu.Handler sdkRegions detect fuel c1 := by
  obtain ⟨h1, h2, h3⟩ := AWSMenu.Handler.readMenu_cons sdkRegions c ⟨cmd, none⟩ rest hin
  have hk2 : (AWSMenu.Handler.readMenu sdkRegions c).2.m.Vault.AWSKey = none := by
    rw [h2]; exact hkey
  have hit : AWSMenu.Handler.iteration sdkRegions detect c =
      Step.next ((AWSMenu.Handler.readMenu sdkRegions c).2.print mustAssociate) := by
    simp only [AWSMenu.Handler.iteration, h1]
    simp only [List.mem_cons, List.mem_singleton, List.not_mem_nil, or_false] at hcmd
    rcases hcmd with rfl | rfl | rfl | rfl | rfl | rfl | rfl | rfl | rfl | rfl <;>
      simp [AWSMenu.Handler.switch, AWSMenu.Handler.mfa, AWSMenu.Handler.role,
        AWSMenu.Handler.temp, AWSMenu.Handler.delete, hk2, Flow.toStep]
  refine ⟨_, hit, ?_, ?_, ?_, ?_⟩
  · simpa [Console.print] using h2
  · simpa [Console.print] using h3
  · simp [Console.print, AWSMenu.Handler.readMenu, hkey, Console.read, Console.prints, hin,
      mustAssociate]
  · intro fuel
    simp [AWSMenu.Handler, hit]


/-- C2: when the mfa command (either alias) is run on a vault with an AWS key,
the sub-flow is entered with the MFA value cleared; if the sub-flow leaves a
key in place and the command is then aborted, by the sub-flow returning
ErrUserAbort or by the manual prompt (reached because the MFA value is still
empty) returning ErrUserAbort, the MFA value is again the one the key had
before the command, and the loop goes on to its next pass. -/
theorem AWSMenu_Handler_mfa_abort_restores_MFA (sdkRegions : String → Bool)
    (detect : Console → Console × Option GoError) (c : Console) (cmd : String)
    (rest : List Reply) (k : vaulted.AWSKey)
    (hcmd : cmd ∈ ["m", "mfa"])
    (hkey : c.m.Vault.AWSKey = some k)
    (hin : c.input = ⟨cmd, none⟩ :: rest) :
    ∃ x : Console,
      x.input = rest ∧
      x.m = (c.setAWSKey (some { k with MFA := "" })).m ∧
      ∀ k1 : vaulted.AWSKey, (detect x).1.m.Vault.AWSKey = some k1 →
        ((detect x).2 = some GoError.ErrUserAbort ∨
          (k1.MFA = "" ∧ ∃ (v : String) (rest1 : List Reply),
            (detect x).1.input = ⟨v, some GoError.ErrUserAbort⟩ :: rest1)) →
        ∃ c1 : Console,
          AWSMenu.Handler.iteration sdkRegions detect c = Step.next c1 ∧
          c1.m.Vault.AWSKey = some { k1 with MFA := k.MFA } ∧
          c1.m.Vault.AWSKey.map (fun a => a.MFA) = c.m.Vault.AWSKey.map (fun a => a.MFA) ∧
          ∀ fuel : Nat, AWSMenu.Handler sdkRegions detect (fuel + 1) c =
            AWSMenu.Handler sdkRegions detect fuel c1 := by
  obtain ⟨h1, h2, h3⟩ := AWSMenu.Handler.readMenu_cons sdkRegions c ⟨cmd, none⟩ rest hin
  have hk2 : (AWSMenu.Handler.readMenu sdkRegions c).2.m.Vault.AWSKey = some k := by
    rw [h2]; exact hkey
  refine ⟨(AWSMenu.Handler.readMenu sdkRegions c).2.setAWSKey (some { k with MFA := "" }),
    h3, ?_, ?_⟩
  · simp [Console.setAWSKey, h2]
  intro k1 hk1 hab
  have hsw : ∃ c1 : Console,
      (AWSMenu.Handler.mfa detect (AWSMenu.Handler.readMenu sdkRegions c).2).toStep
        = Step.next c1 ∧ c1.m.Vault.AWSKey = some { k1 with MFA := k.MFA } := by
    by_cases hd : (detect ((AWSMenu.Handler.readMenu sdkRegions c).2.setAWSKey
        (some { k with MFA := "" }))).2 = some GoError.ErrUserAbort
    · refine ⟨(detect ((AWSMenu.Handler.readMenu sdkRegions c).2.setAWSKey
        (some { k with MFA := "" }))).1.setAWSKey (some { k1 with MFA := k.MFA }), ?_, ?_⟩
      · simp [AWSMenu.Handler.mfa, hk2, hk1, hd, Flow.toStep]
      · simp [Console.setAWSKey]
    · rcases hab with hab | ⟨hempty, v, rest1, hin1⟩
      · exact absurd hab hd
      · refine ⟨((detect ((AWSMenu.Handler.readMenu sdkRegions c).2.setAWSKey
          (some { k with MFA := "" }))).1.read "MFA ARN or serial number: ").2.setAWSKey
            (some { k1 with MFA := k.MFA }), ?_, ?_⟩
        · simp [AWSMenu.Handler.mfa, hk2, hk1, hd, hempty, Console.read, hin1, Flow.toStep]
        · simp [Console.setAWSKey]
  obtain ⟨c1, hc1, hc2⟩ := hsw
  have hit : AWSMenu.Handler.iteration sdkRegions detect c = Step.next c1 := by
    simp only [AWSMenu.Handler.iteration, h1]
    simp only [List.mem_cons, List.mem_singleton, List.not_mem_nil, or_false] at hcmd
    rcases hcmd with rfl | rfl <;> simpa [AWSMenu.Handler.switch] using hc1
  refine ⟨c1, hit, hc2, ?_, ?_⟩
  · simp [hc2, hkey]
  · intro fuel
    simp [AWSMenu.Handler, hit]

/-- C3 (as amended): on a vault whose key has substitution off, the temp
command (any alias) with a duration above 36h asks for confirmation: the
answer y sets the duration to exactly 36h and switches substitution on, every
other answer leaves the whole menu (flag and duration included) as it was; in
both cases the loop goes on. With a duration of exactly 36h no confirmation is
read: substitution is switched on and the duration stays 36h. -/
theorem AWSMenu_Handler_temp_enable (sdkRegions : String → Bool)
    (detect : Console → Console × Option GoError) (c : Console) (cmd : String)
    (rest : List Reply) (k : vaulted.AWSKey)
    (hcmd : cmd ∈ ["t", "temp", "temporary"])
    (hkey : c.m.Vault.AWSKey = some k)
    (hoff : k.ForgoTempCredGeneration = true)
    (hin : c.input = ⟨cmd, none⟩ :: rest) :
    (c.m.Vault.Duration > 36 * Hour →
      ∀ (ans : Reply) (rest1 : List Reply), rest = ans :: rest1 →
        (ans = ⟨"y", none⟩ →
          ∃ c1 : Console,
            AWSMenu.Handler.iteration sdkRegions detect c = Step.next c1 ∧
            c1.input = rest1 ∧
            c1.m.Vault.Duration = 36 * Hour ∧
            c1.m.Vault.AWSKey = some { k with ForgoTempCredGeneration := false }) ∧
        (ans.value ≠ "y" →
          ∃ c1 : Console,
            AWSMenu.Handler.iteration sdkRegions detect c = Step.next c1 ∧
            c1.input = rest1 ∧
            c1.m = c.m)) ∧
    (c.m.Vault.Duration = 36 * Hour →
      ∃ c1 : Console,
        AWSMenu.Handler.iteration sdkRegions detect c = Step.next c1 ∧
        c1.input = rest ∧
        c1.m.Vault.Duration = 36 * Hour ∧
        c1.m.Vault.AWSKey = some { k with ForgoTempCredGeneration := false }) := by
  obtain ⟨h1, h2, h3⟩ := AWSMenu.Handler.readMenu_cons sdkRegions c ⟨cmd, none⟩ rest hin
  have hk2 : (AWSMenu.Handler.readMenu sdkRegions c).2.m.Vault.AWSKey = some k := by
    rw [h2]; exact hkey
  have hsw : AWSMenu.Handler.iteration sdkRegions detect c =
      (AWSMenu.Handler.temp (AWSMenu.Handler.readMenu sdkRegions c).2).toStep := by
    simp only [AWSMenu.Handler.iteration, h1]
    simp only [List.mem_cons, List.mem_singleton, List.not_mem_nil, or_false] at hcmd
    rcases hcmd with rfl | rfl | rfl <;> simp [AWSMenu.Handler.switch]
  rw [hsw]
  generalize (AWSMenu.Handler.readMenu sdkRegions c).2 = c0 at h2 h3
  rw [← h2] at hkey
  rw [← h2]
  refine ⟨fun hd ans rest1 hrest => ⟨fun hy => ?_, fun hn => ?_⟩, fun hd => ?_⟩
  · have hd2 : 36 * Hour < c0.m.Vault.Duration := hd
    have h4 : c0.input = ⟨"y", none⟩ :: rest1 := by rw [h3, hrest, hy]
    simp [AWSMenu.Handler.temp, hkey, hoff, hd2, Console.read, Console.print, h4, Flow.toStep,
      Console.setAWSKey, Console.setDuration]
  · have hd2 : 36 * Hour < c0.m.Vault.Duration := hd
    have h4 : c0.input = ans :: rest1 := by rw [h3, hrest]
    simp [AWSMenu.Handler.temp, hkey, hoff, hd2, Console.read, Console.print, h4, hn,
      Flow.toStep]
  · have hd2 : ¬ 36 * Hour < c0.m.Vault.Duration := by
      rw [hd]; exact lt_irrefl _
    simp [AWSMenu.Handler.temp, hkey, hoff, hd2, Flow.toStep, Console.setAWSKey, h3, hd]

/-- C9: the region command (either alias) with a successful read of `r`, for
any known-region set: the loop goes on, nothing but the key is touched, and
the key becomes: the old key with Region absent (empty `r`, key present); still
absent (empty `r`, no key); a fresh key holding only Region `r` (non-empty `r`,
no key); the old key with Region `r` (non-empty `r`, key present). -/
theorem AWSMenu_Handler_region_sets_or_clears (sdkRegions : String → Bool)
    (detect : Console → Console × Option GoError) (c : Console) (cmd r : String)
    (rest : List Reply)
    (hcmd : cmd ∈ ["R", "region"])
    (hin : c.input = ⟨cmd, none⟩ :: ⟨r, none⟩ :: rest) :
    ∃ c1 : Console,
      AWSMenu.Handler.iteration sdkRegions detect c = Step.next c1 ∧
      c1.input = rest ∧
      c1.m.ShowHidden = c.m.ShowHidden ∧
      c1.m.Vault.Vars = c.m.Vault.Vars ∧
      c1.m.Vault.Duration = c.m.Vault.Duration ∧
      (∀ k : vaulted.AWSKey, c.m.Vault.AWSKey = some k → r = "" →
        c1.m.Vault.AWSKey = some { k with Region := none }) ∧
      (c.m.Vault.AWSKey = none → r = "" → c1.m.Vault.AWSKey = none) ∧
      (c.m.Vault.AWSKey = none → r ≠ "" →
        c1.m.Vault.AWSKey = some ⟨"", "", "", "", false, some r⟩) ∧
      (∀ k : vaulted.AWSKey, c.m.Vault.AWSKey = some k → r ≠ "" →
        c1.m.Vault.AWSKey = some { k with Region := some r }) := by
  obtain ⟨h1, h2, h3⟩ := AWSMenu.Handler.readMenu_cons sdkRegions c ⟨cmd, none⟩ _ hin
  have hsw : AWSMenu.Handler.iteration sdkRegions detect c =
      (AWSMenu.Handler.region sdkRegions (AWSMenu.Handler.readMenu sdkRegions c).2).toStep := by
    simp only [AWSMenu.Handler.iteration, h1]
    simp only [List.mem_cons, List.mem_singleton, List.not_mem_nil, or_false] at hcmd
    rcases hcmd with rfl | rfl <;> simp [AWSMenu.Handler.switch]
  rw [hsw]
  generalize (AWSMenu.Handler.readMenu sdkRegions c).2 = c0 at h2 h3
  rw [← h2]
  rcases eq_or_ne r "" with rfl | hr
  · cases hk : c0.m.Vault.AWSKey <;> cases hs : sdkRegions "" <;>
      simp [AWSMenu.Handler.region, AWSMenu.readRegion, Console.read, Console.print, h3, hk,
        hs, Flow.toStep, Console.setAWSKey, vaulted.AWSKey.zero]
  · cases hk : c0.m.Vault.AWSKey <;> cases hs : sdkRegions r <;>
      simp [AWSMenu.Handler.region, AWSMenu.readRegion, Console.read, Console.print, h3, hk,
        hr, hs, Flow.toStep, Console.setAWSKey, vaulted.AWSKey.zero]

/-- C10: the quit command (any alias) with a successful confirmation read:
the pass returns ErrSaveAndExit exactly when the answer is y; for every other
answer the menu is unchanged, nothing more is read, and the loop goes on to
its next pass. -/
theorem AWSMenu_Handler_quit_only_on_y (sdkRegions : String → Bool)
    (detect : Console → Console × Option GoError) (c : Console) (cmd ans : String)
    (rest : List Reply)
    (hcmd : cmd ∈ ["q", "quit", "exit"])
    (hin : c.input = ⟨cmd, none⟩ :: ⟨ans, none⟩ :: rest) :
    ((∃ c1 : Console, AWSMenu.Handler.iteration sdkRegions detect c =
        Step.stop c1 (Exit.returned (some GoError.ErrSaveAndExit))) ↔ ans = "y") ∧
    (ans = "y" → ∀ fuel : Nat, ∃ c1 : Console,
      AWSMenu.Handler sdkRegions detect (fuel + 1) c =
        some (c1, Exit.returned (some GoError.ErrSaveAndExit))) ∧
    (ans ≠ "y" →
      ∃ c1 : Console,
        AWSMenu.Handler.iteration sdkRegions detect c = Step.next c1 ∧
        c1.m = c.m ∧
        c1.input = rest ∧
        ∀ fuel : Nat, AWSMenu.Handler sdkRegions detect (fuel + 1) c =
          AWSMenu.Handler sdkRegions detect fuel c1) := by
  obtain ⟨h1, h2, h3⟩ := AWSMenu.Handler.readMenu_cons sdkRegions c ⟨cmd, none⟩ _ hin
  have hsw : AWSMenu.Handler.iteration sdkRegions detect c =
      (AWSMenu.Handler.quit (AWSMenu.Handler.readMenu sdkRegions c).2).toStep := by
    simp only [AWSMenu.Handler.iteration, h1]
    simp only [List.mem_cons, List.mem_singleton, List.not_mem_nil, or_false] at hcmd
    rcases hcmd with rfl | rfl | rfl <;> simp [AWSMenu.Handler.switch]
  have hy : ans = "y" → AWSMenu.Handler.iteration sdkRegions detect c =
      Step.stop ((AWSMenu.Handler.readMenu sdkRegions c).2.read
        "Are you sure you wish to save and exit the vault? (y/n): ").2
        (Exit.returned (some GoError.ErrSaveAndExit)) := by
    intro hans
    rw [hsw]
    simp [AWSMenu.Handler.quit, Console.read, h3, hans, Flow.toStep]
  have hn : ans ≠ "y" → AWSMenu.Handler.iteration sdkRegions detect c =
      Step.next ((AWSMenu.Handler.readMenu sdkRegions c).2.read
        "Are you sure you wish to save and exit the vault? (y/n): ").2 := by
    intro hans
    rw [hsw]
    simp [AWSMenu.Handler.quit, Console.read, h3, hans, Flow.toStep]
  refine ⟨⟨fun ⟨c1, hc1⟩ => ?_, fun hans => ⟨_, hy hans⟩⟩, fun hans fuel => ?_, fun hans => ?_⟩
  · by_contra hans
    rw [hn hans] at hc1
    exact Step.noConfusion hc1
  · simp [AWSMenu.Handler, hy hans]
  · refine ⟨_, hn hans, ?_, ?_, fun fuel => ?_⟩
    · simpa [Console.read, h3] using h2
    · simp [Console.read, h3]
    · simp [AWSMenu.Handler, hn hans]

/-- C3 (counterexample): at a duration of exactly 36h the temp command reads
no confirmation. The answer n that follows it is still in the script after the
pass, and substitution has been switched on all the same. -/
theorem AWSMenu_Handler_temp_at_36h_does_not_ask :
    (36 * Hour ≤ (session (some sampleKey) (36 * Hour) [⟨"t", none⟩, ⟨"n", none⟩]).m.Vault.Duration) ∧
    sampleKey.ForgoTempCredGeneration = true ∧
    ∃ c1 : Console,
      AWSMenu.Handler.iteration twoRegions detectNothing
        (session (some sampleKey) (36 * Hour) [⟨"t", none⟩, ⟨"n", none⟩]) = Step.next c1 ∧
      c1.input = [⟨"n", none⟩] ∧
      c1.m.Vault.AWSKey = some { sampleKey with ForgoTempCredGeneration := false } ∧
      c1.m.Vault.AWSKey ≠ some sampleKey :=
  ⟨le_refl _, rfl, _, rfl, rfl, rfl, by decide⟩

/-- C4 (failing input): a vault without a key and with a duration of 48h
satisfies the ceiling; after the key command, and likewise after the region
command with a non-empty region, it holds a fresh key with substitution on
and still has a duration of 48h, so the ceiling is broken. -/
theorem AWSMenu_Handler_fresh_key_breaks_ceiling :
    durationCeiling (session none (48 * Hour) []).m.Vault ∧
    (∃ c1 : Console,
      AWSMenu.Handler.iteration twoRegions detectNothing
        (session none (48 * Hour) [⟨"k", none⟩, ⟨"AKIANEW", none⟩, ⟨"newsecret", none⟩])
        = Step.next c1 ∧
      c1.m.Vault = ⟨[("HOME", "/root")], some ⟨"AKIANEW", "newsecret", "", "", false, none⟩,
        48 * Hour⟩ ∧
      ¬ durationCeiling c1.m.Vault) ∧
    (∃ c1 : Console,
      AWSMenu.Handler.iteration twoRegions detectNothing
        (session none (48 * Hour) [⟨"R", none⟩, ⟨"eu-west-1", none⟩]) = Step.next c1 ∧
      c1.m.Vault = ⟨[("HOME", "/root")], some ⟨"", "", "", "", false, some "eu-west-1"⟩,
        48 * Hour⟩ ∧
      ¬ durationCeiling c1.m.Vault) := by
  refine ⟨?_, ⟨_, rfl, rfl, ?_⟩, ⟨_, rfl, rfl, ?_⟩⟩
  · intro k hk
    exact absurd hk (by simp [session])
  · intro h
    exact absurd (h _ rfl rfl) (by decide)
  · intro h
    exact absurd (h _ rfl rfl) (by decide)

/-- C8 (failing input): with substitution off and a duration of 48h, the temp
command reads its confirmation; the read fails with an I/O error. The pass
does not return that error: it prints that temporary credentials were not
enabled and goes round again, and Handler, reading back next, returns nil. -/
theorem AWSMenu_Handler_temp_swallows_read_error :
    (∃ c1 : Console,
      AWSMenu.Handler.iteration twoRegions detectNothing
        (session (some sampleKey) (48 * Hour)
          [⟨"t", none⟩, ⟨"", some (GoError.New "input/output error")⟩, ⟨"b", none⟩])
        = Step.next c1 ∧
      c1.input = [⟨"b", none⟩] ∧
      c1.m = (session (some sampleKey) (48 * Hour) []).m ∧
      c1.out.getLast? = some "Temporary credentials not enabled.\n") ∧
    (∃ c2 : Console,
      AWSMenu.Handler twoRegions detectNothing 2
        (session (some sampleKey) (48 * Hour)
          [⟨"t", none⟩, ⟨"", some (GoError.New "input/output error")⟩, ⟨"b", none⟩])
        = some (c2, Exit.returned none)) :=
  ⟨⟨_, rfl, rfl, rfl, rfl⟩, ⟨_, rfl⟩⟩

/-- Witness for C1: the key command on a vault holding `sampleKey`, with the
sub-flow cancelled: the vault still holds `sampleKey`. -/
theorem AWSMenu_Handler_key_abort_restores_AWSKey_witness :
    ∃ c1 : Console,
      AWSMenu.Handler.iteration twoRegions detectAborted
        (session (some sampleKey) (12 * Hour)
          [⟨"add", none⟩, ⟨"AKIANEW", none⟩, ⟨"newsecret", none⟩]) = Step.next c1 ∧
      c1.m.Vault.AWSKey = some sampleKey := by
  obtain ⟨x, -, -, h⟩ := AWSMenu_Handler_key_abort_restores_AWSKey twoRegions detectAborted
    (session (some sampleKey) (12 * Hour) [⟨"add", none⟩, ⟨"AKIANEW", none⟩, ⟨"newsecret", none⟩])
    "add" "AKIANEW" "newsecret" [] (by decide) rfl
  obtain ⟨c1, h1, h2, -⟩ := h rfl
  exact ⟨c1, h1, h2⟩

/-- Witness for C2: the mfa command on a vault holding `sampleKey`, with the
sub-flow cancelled: the MFA value is the one of `sampleKey`. -/
theorem AWSMenu_Handler_mfa_abort_restores_MFA_witness :
    ∃ c1 : Console,
      AWSMenu.Handler.iteration twoRegions detectAborted
        (session (some sampleKey) (12 * Hour) [⟨"mfa", none⟩]) = Step.next c1 ∧
      c1.m.Vault.AWSKey = some sampleKey := by
  obtain ⟨x, -, hx, h⟩ := AWSMenu_Handler_mfa_abort_restores_MFA twoRegions detectAborted
    (session (some sampleKey) (12 * Hour) [⟨"mfa", none⟩]) "mfa" [] sampleKey
    (by decide) rfl rfl
  obtain ⟨c1, h1, h2, -, -⟩ := h { sampleKey with MFA := "" }
    (by simp [detectAborted, hx, Console.setAWSKey]) (Or.inl rfl)
  exact ⟨c1, h1, h2⟩

/-- Witness for C3: the temp command at 48h with substitution off, answered
with y: the duration becomes 36h and substitution is on. -/
theorem AWSMenu_Handler_temp_enable_witness :
    ∃ c1 : Console,
      AWSMenu.Handler.iteration twoRegions detectNothing
        (session (some sampleKey) (48 * Hour) [⟨"temp", none⟩, ⟨"y", none⟩]) = Step.next c1 ∧
      c1.m.Vault.Duration = 36 * Hour ∧
      c1.m.Vault.AWSKey = some { sampleKey with ForgoTempCredGeneration := false } := by
  obtain ⟨c1, h1, -, h2, h3⟩ := ((AWSMenu_Handler_temp_enable twoRegions detectNothing
    (session (some sampleKey) (48 * Hour) [⟨"temp", none⟩, ⟨"y", none⟩]) "temp"
    [⟨"y", none⟩] sampleKey (by decide) rfl rfl rfl).1 (by decide) ⟨"y", none⟩ [] rfl).1 rfl
  exact ⟨c1, h1, h2, h3⟩

/-- Witness for C5: the delete command on a vault without a key. -/
theorem AWSMenu_Handler_without_key_is_noop_witness :
    ∃ c1 : Console,
      AWSMenu.Handler.iteration twoRegions detectNothing
        (session none (12 * Hour) [⟨"delete", none⟩, ⟨"y", none⟩]) = Step.next c1 ∧
      c1.m = (session none (12 * Hour) []).m ∧
      c1.input = [⟨"y", none⟩] := by
  obtain ⟨c1, h1, h2, h3, -, -⟩ := AWSMenu_Handler_without_key_is_noop twoRegions detectNothing
    (session none (12 * Hour) [⟨"delete", none⟩, ⟨"y", none⟩]) "delete" [⟨"y", none⟩]
    (by decide) rfl rfl
  exact ⟨c1, h1, h2, h3⟩

/-- Witness for C9: the region command with an unknown region on a vault
without a key creates a key that holds only the region. -/
theorem AWSMenu_Handler_region_sets_or_clears_witness :
    ∃ c1 : Console,
      AWSMenu.Handler.iteration twoRegions detectNothing
        (session none (12 * Hour) [⟨"region", none⟩, ⟨"mars-1", none⟩]) = Step.next c1 ∧
      c1.m.Vault.AWSKey = some ⟨"", "", "", "", false, some "mars-1"⟩ := by
  obtain ⟨c1, h1, -, -, -, -, -, -, h2, -⟩ := AWSMenu_Handler_region_sets_or_clears twoRegions
    detectNothing (session none (12 * Hour) [⟨"region", none⟩, ⟨"mars-1", none⟩]) "region"
    "mars-1" [] (by decide) rfl
  exact ⟨c1, h1, h2 rfl (by decide)⟩

/-- Witness for C10: the quit command answered with yes does not leave the
editor. -/
theorem AWSMenu_Handler_quit_only_on_y_witness :
    ∃ c1 : Console,
      AWSMenu.Handler.iteration twoRegions detectNothing
        (session (some sampleKey) (12 * Hour) [⟨"quit", none⟩, ⟨"yes", none⟩]) = Step.next c1 ∧
      c1.m = (session (some sampleKey) (12 * Hour) []).m ∧
      c1.input = [] := by
  obtain ⟨c1, h1, h2, h3, -⟩ := (AWSMenu_Handler_quit_only_on_y twoRegions detectNothing
    (session (some sampleKey) (12 * Hour) [⟨"quit", none⟩, ⟨"yes", none⟩]) "quit" "yes" []
    (by decide) rfl).2.2 (by decide)
  exact ⟨c1, h1, h2, h3⟩

/-- A failed menu read ends Handler with the error of the read. -/
theorem AWSMenu.Handler.iteration_menu_read_fails (sdkRegions : String → Bool)
    (detect : Console → Console × Option GoError) (c : Console) (v : String) (e : GoError)
    (rest : List Reply) (hin : c.input = ⟨v, some e⟩ :: rest) :
    ∃ c1 : Console, AWSMenu.Handler.iteration sdkRegions detect c =
      Step.stop c1 (Exit.returned (some e)) := by
  obtain ⟨h1, -, -⟩ := AWSMenu.Handler.readMenu_cons sdkRegions c ⟨v, some e⟩ rest hin
  simp [AWSMenu.Handler.iteration, h1]

/-- In the arms key (read of the id), role, region, delete and quit, a failed
read ends Handler with the error of the read; role and delete need a key to
reach their read. -/
theorem AWSMenu.Handler.iteration_arm_read_fails (sdkRegions : String → Bool)
    (detect : Console → Console × Option GoError) (c : Console) (cmd v : String) (e : GoError)
    (rest : List Reply)
    (hcmd : cmd ∈ ["k", "add", "key", "keys", "R", "region", "q", "quit", "exit"] ∨
      (cmd ∈ ["r", "role", "D", "delete", "remove"] ∧ c.m.Vault.AWSKey ≠ none))
    (hin : c.input = ⟨cmd, none⟩ :: ⟨v, some e⟩ :: rest) :
    ∃ c1 : Console, AWSMenu.Handler.iteration sdkRegions detect c =
      Step.stop c1 (Exit.returned (some e)) := by
  obtain ⟨h1, h2, h3⟩ := AWSMenu.Handler.readMenu_cons sdkRegions c ⟨cmd, none⟩ _ hin
  simp only [AWSMenu.Handler.iteration, h1]
  generalize (AWSMenu.Handler.readMenu sdkRegions c).2 = c0 at h2 h3
  rw [← h2] at hcmd
  simp only [List.mem_cons, List.mem_singleton, List.not_mem_nil, or_false] at hcmd
  rcases hcmd with hc | ⟨hc, hk⟩
  · rcases hc with rfl | rfl | rfl | rfl | rfl | rfl | rfl | rfl | rfl <;>
      simp [AWSMenu.Handler.switch, AWSMenu.Handler.key, AWSMenu.Handler.region,
        AWSMenu.readRegion, AWSMenu.Handler.quit, Console.read, Console.print, h3, Flow.toStep]
  · obtain ⟨k, hk1⟩ := Option.ne_none_iff_exists'.mp hk
    rcases hc with rfl | rfl | rfl | rfl | rfl <;>
      simp [AWSMenu.Handler.switch, AWSMenu.Handler.role, AWSMenu.Handler.delete,
        Console.read, h3, hk1, Flow.toStep]

end menu

/-! ## Properties of the batch commands -/

/-- The loop of `Remove.Run` asks the store to remove each name in turn and
adds one to the counter, and one line to the output, for each error. -/
theorem Remove.Run.loop_eq {σ : Type} (S : Store σ) (names : List String) :
    ∀ (failures : Int) (p : Proc σ),
      Remove.Run.loop S names failures p =
        (failures + (((S.removeEach names p.store).1.filter Option.isSome).length : Int),
          { store := (S.removeEach names p.store).2,
            calls := p.calls ++ List.zipWith Call.RemoveVault names (S.removeEach names p.store).1,
            out := p.out ++ failureLines (names.zip (S.removeEach names p.store).1) }) := by
  induction names with
  | nil => intro failures p; simp [Remove.Run.loop, Store.removeEach, failureLines]
  | cons name rest ih =>
    intro failures p
    cases h : (S.RemoveVault name p.store).1 with
    | none =>
      simp [Remove.Run.loop, Store.removeEach, Proc.RemoveVault, h, ih, failureLines]
    | some err =>
      simp [Remove.Run.loop, Store.removeEach, Proc.RemoveVault, Proc.print, h, ih,
        failureLines]
      omega

/-- One failure line is printed for each error among the outcomes. -/
theorem failureLines_length (names : List String) :
    ∀ errs : List (Option GoError), errs.length = names.length →
      (failureLines (names.zip errs)).length = (errs.filter Option.isSome).length := by
  induction names with
  | nil =>
    intro errs hlen
    have hnil : errs = [] := List.length_eq_zero.mp (by simpa using hlen)
    subst hnil
    simp [failureLines]
  | cons name rest ih =>
    intro errs hlen
    cases errs with
    | nil => simp at hlen
    | cons e es =>
      have hes := ih es (by simpa using hlen)
      rw [List.zip] at hes
      cases e <;> simp [failureLines, hes]

/-- The store is asked once for each name. -/
theorem Store.removeEach_length {σ : Type} (S : Store σ) (names : List String) :
    ∀ s : σ, (S.removeEach names s).1.length = names.length := by
  induction names with
  | nil => intro s; simp [Store.removeEach]
  | cons name rest ih => intro s; simp [Store.removeEach, ih]

/-- C6: for every store and every list of names, `Remove.Run` calls
RemoveVault once for each name, in list order, whatever the earlier calls
returned; it prints one line `<name>: <error>` for each failing name; and it
returns nil when no call failed, otherwise an ErrorWithExitCode whose code is
the number of failing names. For the names a, b, c on a store that holds a and
c only: c is still removed, one line is printed, and the code is 1. -/
theorem Remove_Run_attempts_every_name (σ : Type) (S : Store σ) (VaultNames : List String)
    (p : Proc σ) :
    ((S.removeEach VaultNames p.store).1.length = VaultNames.length ∧
      (Remove.Run S VaultNames p).2.calls =
        p.calls ++ List.zipWith Call.RemoveVault VaultNames (S.removeEach VaultNames p.store).1 ∧
      (Remove.Run S VaultNames p).2.store = (S.removeEach VaultNames p.store).2 ∧
      (Remove.Run S VaultNames p).2.out =
        p.out ++ failureLines (VaultNames.zip (S.removeEach VaultNames p.store).1) ∧
      (failureLines (VaultNames.zip (S.removeEach VaultNames p.store).1)).length =
        ((S.removeEach VaultNames p.store).1.filter Option.isSome).length ∧
      (Remove.Run S VaultNames p).1 =
        if ((S.removeEach VaultNames p.store).1.filter Option.isSome).length = 0 then none
        else some (GoError.ErrorWithExitCode (GoError.New "Vault could not be removed")
          ((S.removeEach VaultNames p.store).1.filter Option.isSome).length)) ∧
    (Remove.Run MemStore.ops ["a", "b", "c"]
        ⟨⟨[("a", ⟨[], none, 0⟩), ("c", ⟨[], none, 0⟩)], none, [], ""⟩, [], []⟩).1 =
      some (GoError.ErrorWithExitCode (GoError.New "Vault could not be removed") 1) ∧
    (Remove.Run MemStore.ops ["a", "b", "c"]
        ⟨⟨[("a", ⟨[], none, 0⟩), ("c", ⟨[], none, 0⟩)], none, [], ""⟩, [], []⟩).2.calls =
      [Call.RemoveVault "a" none,
        Call.RemoveVault "b" (some (GoError.New "vault does not exist")),
        Call.RemoveVault "c" none] ∧
    (Remove.Run MemStore.ops ["a", "b", "c"]
        ⟨⟨[("a", ⟨[], none, 0⟩), ("c", ⟨[], none, 0⟩)], none, [], ""⟩, [], []⟩).2.out =
      ["b: vault does not exist\n"] ∧
    (Remove.Run MemStore.ops ["a", "b", "c"]
        ⟨⟨[("a", ⟨[], none, 0⟩), ("c", ⟨[], none, 0⟩)], none, [], ""⟩, [], []⟩).2.store.vaults =
      [] := by
  refine ⟨⟨Store.removeEach_length S VaultNames p.store, ?_, ?_, ?_,
    failureLines_length VaultNames _ (Store.removeEach_length S VaultNames p.store), ?_⟩,
    by decide, by decide, by decide, by decide⟩
  · simp [Remove.Run, Remove.Run.loop_eq]
    split <;> rfl
  · simp [Remove.Run, Remove.Run.loop_eq]
    split <;> rfl
  · simp [Remove.Run, Remove.Run.loop_eq]
    split <;> rfl
  · simp only [Remove.Run, Remove.Run.loop_eq, zero_add]
    by_cases h0 : ((S.removeEach VaultNames p.store).1.filter Option.isSome).length = 0
    · simp [h0]
    · have hpos : (0 : Int) <
          (((S.removeEach VaultNames p.store).1.filter Option.isSome).length : Int) := by
        omega
      simp [h0, hpos]

/-- C7 (failing input): the store holds a vault prod, listing the vaults fails,
and the legacy vault has an entry prod. `Upgrade.Run` drops the listing error,
calls SealVaultWithPassword for prod, reports prod as upgraded and returns nil;
the vault prod that was in the store has been replaced by the legacy one. -/
theorem Upgrade_Run_overwrites_when_listing_fails :
    ∃ p1 : Proc MemStore,
      Upgrade.Run MemStore.ops
        ⟨⟨[("prod", ⟨[("KEY", "current")], some menu.sampleKey, 12 * Hour⟩)],
          some (GoError.New "permission denied"),
          [("prod", ⟨[("KEY", "legacy")]⟩)], "pw"⟩, [], []⟩ = some (none, p1) ∧
      p1.calls = [Call.OpenLegacyVault, Call.ListVaults,
        Call.SealVaultWithPassword ⟨[("KEY", "legacy")], none, 0⟩ "prod" "pw" none] ∧
      p1.out = ["prod: upgraded\n"] ∧
      p1.store.vaults = [("prod", ⟨[("KEY", "legacy")], none, 0⟩)] :=
  ⟨_, rfl, rfl, rfl, rfl⟩

/-- The loop of `Upgrade.Run` seals only names that the lookup in
`existingVaults` does not find: every call it adds to the log is a
SealVaultWithPassword, under the shared password, for such a name. -/
theorem Upgrade.Run.loop_seals_only_unlisted {σ : Type} (S : Store σ)
    (existingVaults : String → Bool) (password : String)
    (envs : List (String × legacy.Environment)) :
    ∀ (failed : Int) (p : Proc σ) (call : Call),
      call ∈ (Upgrade.Run.loop S existingVaults password envs failed p).2.calls →
      call ∈ p.calls ∨
        ∃ (vault : vaulted.Vault) (name : String) (err : Option GoError),
          call = Call.SealVaultWithPassword vault name password err ∧
          existingVaults name = false := by
  induction envs with
  | nil => intro failed p call h; exact Or.inl h
  | cons e rest ih =>
    intro failed p call h
    obtain ⟨name, env⟩ := e
    by_cases hex : existingVaults name = true
    · simp only [Upgrade.Run.loop, hex, if_true] at h
      rcases ih _ _ call h with h1 | h1
      · exact Or.inl (by simpa [Proc.print] using h1)
      · exact Or.inr h1
    · have hex2 : existingVaults name = false := by simpa using hex
      simp only [Upgrade.Run.loop, hex2] at h
      have hnew : ∀ q : Proc σ,
          q.calls = (Proc.SealVaultWithPassword S ⟨env.Vars, none, 0⟩ name password p).2.calls →
          call ∈ q.calls →
          call ∈ p.calls ∨
            ∃ (vault : vaulted.Vault) (name : String) (err : Option GoError),
              call = Call.SealVaultWithPassword vault name password err ∧
              existingVaults name = false := by
        intro q hq hmem
        rw [hq] at hmem
        simp only [Proc.SealVaultWithPassword, List.mem_append, List.mem_singleton] at hmem
        rcases hmem with h1 | h1
        · exact Or.inl h1
        · exact Or.inr ⟨_, name, _, h1, hex2⟩
      cases hr : (Proc.SealVaultWithPassword S ⟨env.Vars, none, 0⟩ name password p).1 with
      | none =>
        simp only [hr] at h
        rcases ih _ _ call h with h1 | h1
        · exact hnew _ rfl h1
        · exact Or.inr h1
      | some err =>
        simp only [hr] at h
        rcases ih _ _ call h with h1 | h1
        · exact hnew _ rfl h1
        · exact Or.inr h1
